import Mathlib

/-!
Shallow embedding of the procedural-maze and entity-simulation core of the
blind-rogue repository: the pure game logic of `src/utils/gameLogic.ts` and the
synchronous state-transition portions of the screen controller
`src/app/(tabs)/index.tsx`.

Randomness model: every call to JavaScript's `Math.random()` is one draw from
an ambient stream `rho : ℕ → ℕ` of arbitrary naturals, consumed left to right
(the stream index is threaded explicitly).  `Math.floor(Math.random() * n)` is
modelled as `rho i % n`, and a probability test `Math.random() < c` (with
c ∈ {0.12, 0.4, 0.6}) as `rho i % 100 < 100 * c`.  Every theorem below that
quantifies over `rho` therefore quantifies over every possible sequence of
random draws.  The biased comparator shuffle
`[...xs].sort(() => Math.random() - 0.5)` (whose outcome is an
implementation-defined permutation of the input) is modelled as a
stream-chosen permutation: at each step the stream picks which remaining
element comes next, so the model's behaviours are exactly the permutations of
the input, a superset of the behaviours of any concrete JS engine.
-/

namespace BlindRogue

/-- `GRID_SIZE` from `gameLogic.ts`. -/
def GRID_SIZE : ℤ := 10

/-- `Position` from `gameLogic.ts`: integer grid coordinates (ℤ, since the
code freely forms out-of-bounds candidates such as `x - 1 = -1`). -/
structure Position where
  x : ℤ
  y : ℤ
deriving DecidableEq, Repr

/-- `Direction` from `gameLogic.ts`. -/
inductive Direction where
  | up
  | down
  | left
  | right
deriving DecidableEq, Repr

/-- `Grid` from `gameLogic.ts`: `number[][]` (a transparent type alias),
addressed `grid[y][x]`, 0 = wall, 1 = path. -/
abbrev Grid : Type := List (List ℕ)

/-- Read `grid[y][x]` (used only at in-bounds positions, as in the source). -/
def cellAt (grid : Grid) (pos : Position) : ℕ :=
  (grid.getD pos.y.toNat []).getD pos.x.toNat 0

/-- Write `grid[y][x] = v` (used only at in-bounds positions, as in the source). -/
def setCell (grid : Grid) (pos : Position) (v : ℕ) : Grid :=
  grid.set pos.y.toNat ((grid.getD pos.y.toNat []).set pos.x.toNat v)

/-- `isValidPosition` from `gameLogic.ts`. -/
def isValidPosition (pos : Position) : Bool :=
  decide (0 ≤ pos.x) && decide (pos.x < GRID_SIZE) &&
  decide (0 ≤ pos.y) && decide (pos.y < GRID_SIZE)

/-- `isPath` from `gameLogic.ts`: valid position whose cell is 1. -/
def isPath (grid : Grid) (pos : Position) : Bool :=
  if isValidPosition pos = false then false
  else decide (cellAt grid pos = 1)

/-- `getAdjacentPosition` from `gameLogic.ts`. -/
def getAdjacentPosition (current : Position) (direction : Direction) : Position :=
  match direction with
  | .up => ⟨current.x, current.y - 1⟩
  | .down => ⟨current.x, current.y + 1⟩
  | .left => ⟨current.x - 1, current.y⟩
  | .right => ⟨current.x + 1, current.y⟩

/-- `getDistance` from `gameLogic.ts`: Manhattan distance. -/
def getDistance (pos1 pos2 : Position) : ℕ :=
  (pos1.x - pos2.x).natAbs + (pos1.y - pos2.y).natAbs

/-- `isTrap` from `gameLogic.ts`. -/
def isTrap (pos : Position) (trapPositions : List Position) : Bool :=
  trapPositions.any (fun trap => decide (trap.x = pos.x) && decide (trap.y = pos.y))

/-- `checkWin` from `gameLogic.ts`. -/
def checkWin (playerPos endPos : Position) : Bool :=
  decide (playerPos.x = endPos.x) && decide (playerPos.y = endPos.y)

/-- `Goblin` from `gameLogic.ts`. -/
structure Goblin where
  id : ℕ
  position : Position
  direction : Direction
deriving DecidableEq, Repr

/-- Game status: `'playing' | 'dead' | 'won'`. -/
inductive Status where
  | playing
  | dead
  | won
deriving DecidableEq, Repr

/-- `GameState` from `gameLogic.ts`. -/
structure GameState where
  grid : Grid
  playerPosition : Position
  startPosition : Position
  endPosition : Position
  trapPositions : List Position
  goblins : List Goblin
  status : Status
deriving DecidableEq

/-- `isGoblinApproachingPlayer` from `gameLogic.ts`: the goblin's next step
(per its current direction) lands exactly on the player. -/
def isGoblinApproachingPlayer (goblin : Goblin) (playerPos : Position) : Bool :=
  let nextPos := getAdjacentPosition goblin.position goblin.direction
  decide (nextPos.x = playerPos.x) && decide (nextPos.y = playerPos.y)

/-- `isGoblinWalkingAway` from `gameLogic.ts`. -/
def isGoblinWalkingAway (goblin : Goblin) (playerPos : Position) : Bool :=
  let distance := getDistance goblin.position playerPos
  if decide (distance ≠ 1) then false
  else
    let nextPos := getAdjacentPosition goblin.position goblin.direction
    let currentDistance := getDistance goblin.position playerPos
    let nextDistance := getDistance nextPos playerPos
    decide (nextDistance > currentDistance)

/-- `isGoblinAdjacentToPlayer` from `gameLogic.ts`. -/
def isGoblinAdjacentToPlayer (goblin : Goblin) (playerPos : Position) : Bool :=
  let dx := (goblin.position.x - playerPos.x).natAbs
  let dy := (goblin.position.y - playerPos.y).natAbs
  decide ((dx = 1 ∧ dy = 0) ∨ (dx = 0 ∧ dy = 1))

/-- The direction array `['up', 'down', 'left', 'right']` used for random
direction picks in `generateGoblins` and `moveGoblin`. -/
def directionList : List Direction := [.up, .down, .left, .right]

/-- `moveGoblin` from `gameLogic.ts`.  `rho` is the random stream, `i` the
index of its next unread draw.  The `playerPos` parameter is accepted and
ignored exactly as in the source (goblins walk through the player). -/
def moveGoblin (rho : ℕ → ℕ) (i : ℕ) (goblin : Goblin) (grid : Grid)
    (playerPos : Position) : Goblin :=
  let nextPos := getAdjacentPosition goblin.position goblin.direction
  if isPath grid nextPos then
    { goblin with position := nextPos }
  else
    let validDirections := directionList.filter
      (fun dir => isPath grid (getAdjacentPosition goblin.position dir))
    if validDirections.length = 0 then
      goblin
    else
      let newDirection := validDirections.getD (rho i % validDirections.length) .up
      let newPos := getAdjacentPosition goblin.position newDirection
      { goblin with position := newPos, direction := newDirection }

/-- The ambush predicate inlined identically in `handleMove` (index.tsx
lines 338-347) and `handleDoubleTap` (lines 530-538): distance 0 or 1 and
the goblin's next step lands on the player. -/
def isAmbushing (playerPos : Position) (goblin : Goblin) : Bool :=
  let distance := getDistance goblin.position playerPos
  if decide (distance ≠ 0) && decide (distance ≠ 1) then false
  else isGoblinApproachingPlayer goblin playerPos

/-- The backstab-target predicate inlined in `handleDoubleTap` (index.tsx
lines 558-565): distance exactly 1 and walking away. -/
def isBackstabTarget (playerPos : Position) (goblin : Goblin) : Bool :=
  if decide (getDistance goblin.position playerPos ≠ 1) then false
  else isGoblinWalkingAway goblin playerPos

/-- The synchronous `GameState` transition of `handleMove` from `index.tsx`.
Sound, haptic and timer side effects (death restart, trap countdown) are
external; the state handed to `setGameState` is modelled exactly. -/
def handleMove (gs : GameState) (direction : Direction) : GameState :=
  if gs.status ≠ Status.playing then gs
  else
    let newPos := getAdjacentPosition gs.playerPosition direction
    if isValidPosition newPos = false then
      { gs with status := .dead }
    else if isPath gs.grid newPos = false then
      { gs with status := .dead }
    else
      match gs.goblins.find? (isAmbushing gs.playerPosition) with
      | some _ => { gs with status := .dead }
      | none =>
        let updatedState := { gs with playerPosition := newPos }
        if checkWin newPos gs.endPosition then
          { updatedState with status := .won }
        else updatedState

/-- The synchronous transition of `handleDoubleTap` from `index.tsx`.
Inputs: the last recorded tap timestamp and the current time (`Date.now()`);
returns the new `GameState` together with the new `lastTapTimeRef` value. -/
def handleDoubleTap (gs : GameState) (lastTapTime now : ℤ) : GameState × ℤ :=
  if gs.status ≠ Status.playing then (gs, lastTapTime)
  else
    let timeSinceLastTap := now - lastTapTime
    if decide (0 < timeSinceLastTap) && decide (timeSinceLastTap < 300) then
      match gs.goblins.find? (isAmbushing gs.playerPosition) with
      | some _ => ({ gs with status := .dead }, 0)
      | none =>
        match gs.goblins.find? (isBackstabTarget gs.playerPosition) with
        | some goblinWalkingAway =>
          ({ gs with
              goblins := gs.goblins.filter (fun g => decide (g.id ≠ goblinWalkingAway.id)) },
            0)
        | none => (gs, now)
    else (gs, now)

/-- Audio cues requested by `handleHear`. -/
inductive Cue where
  | hearCue
  | windCue
  | caveCue
deriving DecidableEq, Repr

/-- The synchronous content of `handleHear` from `index.tsx`: the guard, the
classification of the adjacent cell, the cues requested, and the final value
of the `isHearing` flag.  It never writes `GameState`. -/
def handleHear (gs : GameState) (isHearing : Bool) (direction : Direction) :
    GameState × Bool × List Cue :=
  if isHearing = true ∨ gs.status ≠ Status.playing then (gs, isHearing, [])
  else
    let adjacentPos := getAdjacentPosition gs.playerPosition direction
    if isValidPosition adjacentPos = false then (gs, false, [.hearCue, .windCue])
    else if isPath gs.grid adjacentPos = false then (gs, false, [.hearCue, .windCue])
    else (gs, false, [.hearCue, .caveCue])

/-- The goblin-movement interval callback installed by `startGoblinMovement`
in `index.tsx`: when playing and goblins exist, advance every goblin. -/
def goblinTick (rho : ℕ → ℕ) (i : ℕ) (gs : GameState) : GameState :=
  if gs.status ≠ Status.playing ∨ gs.goblins.length = 0 then gs
  else
    { gs with
        goblins := gs.goblins.enum.map
          (fun kg => moveGoblin rho (i + kg.1) kg.2 gs.grid gs.playerPosition) }

/-- The synchronous `GameState` update of `restartCurrentLevel` from
`index.tsx`: player back to start, status playing, level data preserved. -/
def restartCurrentLevel (gs : GameState) : GameState :=
  { gs with playerPosition := gs.startPosition, status := .playing }

/-- The comparator shuffle `[...xs].sort(() => Math.random() - 0.5)` from
`generateTraps` / `generateGoblins`.  A JS sort under an inconsistent random
comparator returns an implementation-defined permutation of its input; it is
modelled as the stream-chosen permutation: draw `k`, emit the `k`-th
remaining element, repeat.  Every permutation (hence every possible JS
outcome) is realized by some stream. -/
def shuffleAux (rho : ℕ → ℕ) : ℕ → ℕ → List Position → List Position
  | 0, _, _ => []
  | _, _, [] => []
  | fuel + 1, i, x :: xs =>
    let l := x :: xs
    let k := rho i % l.length
    l.getD k x :: shuffleAux rho fuel (i + 1) (l.eraseIdx k)

/-- Entry point: one draw is consumed per element, so `l.length` rounds of
selection perform the whole shuffle. -/
def shuffleList (rho : ℕ → ℕ) (i : ℕ) (l : List Position) : List Position :=
  shuffleAux rho l.length i l

/-- The `pathPositions` collection loop of `generateTraps`: all path cells in
row-major order, excluding start and end. -/
def trapPathPositions (grid : Grid) (start endP : Position) : List Position :=
  (List.range 10).flatMap (fun y =>
    (List.range 10).filterMap (fun x =>
      let pos : Position := ⟨((x : ℕ) : ℤ), ((y : ℕ) : ℤ)⟩
      if decide (cellAt grid pos = 1) &&
         !(decide (pos.x = start.x) && decide (pos.y = start.y)) &&
         !(decide (pos.x = endP.x) && decide (pos.y = endP.y)) then some pos
      else none))

/-- `generateTraps` from `gameLogic.ts`. -/
def generateTraps (rho : ℕ → ℕ) (i : ℕ) (grid : Grid) (start endP : Position)
    (numTraps : ℕ := 2) : List Position :=
  let pathPositions := trapPathPositions grid start endP
  let numTrapsToPlace := min numTraps pathPositions.length
  let shuffled := shuffleList rho i pathPositions
  shuffled.take numTrapsToPlace

/-- The `pathPositions` collection loop of `generateGoblins`: all path cells
in row-major order, excluding start, end and the player position. -/
def goblinPathPositions (grid : Grid) (start endP playerPos : Position) : List Position :=
  (List.range 10).flatMap (fun y =>
    (List.range 10).filterMap (fun x =>
      let pos : Position := ⟨((x : ℕ) : ℤ), ((y : ℕ) : ℤ)⟩
      if decide (cellAt grid pos = 1) &&
         !(decide (pos.x = start.x) && decide (pos.y = start.y)) &&
         !(decide (pos.x = endP.x) && decide (pos.y = endP.y)) &&
         !(decide (pos.x = playerPos.x) && decide (pos.y = playerPos.y)) then some pos
      else none))

/-- `directions[k]` for a random index `k`. -/
def dirFromIndex (n : ℕ) : Direction := directionList.getD n .up

/-- `generateGoblins` from `gameLogic.ts`: 0-2 goblins on shuffled eligible
path cells, ids assigned by the ascending counter `nextGoblinId` starting at
1, each with a random initial direction (one draw per goblin, taken after the
draws consumed by the shuffle). -/
def generateGoblins (rho : ℕ → ℕ) (i : ℕ) (grid : Grid)
    (start endP playerPos : Position) : List Goblin :=
  let pathPositions := goblinPathPositions grid start endP playerPos
  let numGoblins := rho i % 3
  let shuffled := shuffleList rho (i + 1) pathPositions
  let j := i + 1 + pathPositions.length
  (List.range (min numGoblins shuffled.length)).map (fun k =>
    { id := k + 1,
      position := shuffled.getD k ⟨0, 0⟩,
      direction := dirFromIndex (rho (j + k) % directionList.length) })

/-- A candidate carve move: target cell plus the direction leading there. -/
structure MoveOption where
  pos : Position
  dir : Direction
deriving DecidableEq, Repr

/-- The `possibleMoves` array built each carve iteration (`generateGrid`,
lines 71-74), in source order: right, down, left, up. -/
def possibleMovesAt (current : Position) : List MoveOption :=
  [⟨⟨current.x + 1, current.y⟩, .right⟩,
   ⟨⟨current.x, current.y + 1⟩, .down⟩,
   ⟨⟨current.x - 1, current.y⟩, .left⟩,
   ⟨⟨current.x, current.y - 1⟩, .up⟩]

/-- The `adjacentPathCount` computation of the carve-move filter
(`generateGrid`, lines 95-101). -/
def adjacentPathCount (grid : Grid) (checkPos : Position) : ℕ :=
  (if decide (checkPos.x > 0) && decide (cellAt grid ⟨checkPos.x - 1, checkPos.y⟩ = 1)
    then 1 else 0) +
  (if decide (checkPos.x < GRID_SIZE - 1) && decide (cellAt grid ⟨checkPos.x + 1, checkPos.y⟩ = 1)
    then 1 else 0) +
  (if decide (checkPos.y > 0) && decide (cellAt grid ⟨checkPos.x, checkPos.y - 1⟩ = 1)
    then 1 else 0) +
  (if decide (checkPos.y < GRID_SIZE - 1) && decide (cellAt grid ⟨checkPos.x, checkPos.y + 1⟩ = 1)
    then 1 else 0)

/-- The `validMoves` filter of the carve loop (`generateGrid`, lines 78-106):
in bounds, not already a path, and adjacent to exactly one path cell. -/
def isValidMove (grid : Grid) (move : MoveOption) : Bool :=
  if decide (move.pos.x < 0) || decide (move.pos.x ≥ GRID_SIZE) ||
     decide (move.pos.y < 0) || decide (move.pos.y ≥ GRID_SIZE) then false
  else if decide (cellAt grid move.pos = 1) then false
  else decide (adjacentPathCount grid move.pos = 1)

/-- Sorting candidate moves by Manhattan distance of their target to `end`
(`generateGrid`, lines 120-124 and 141-145); the JS comparator
`distA - distB` yields the stable ascending order, which is what a stable
sort (here insertion sort) by distance computes. -/
def sortByDistanceToEnd (moves : List MoveOption) (endP : Position) : List MoveOption :=
  moves.insertionSort (fun a b => getDistance a.pos endP ≤ getDistance b.pos endP)

/-- `maxRooms` from `generateGrid`. -/
def maxRooms : ℕ := 3

/-- The mutable locals of the carve loop of `generateGrid`: the grid, the
carve cursor `current`, the next random-stream index, and the bookkeeping
variables `lastDirection`, `straightCount`, `roomCount` and `path.length`. -/
structure CarveState where
  grid : Grid
  current : Position
  i : ℕ
  lastDirection : Option Direction
  straightCount : ℕ
  roomCount : ℕ
  pathLen : ℕ

/-- The move-choice policy of one carve iteration (`generateGrid`, lines
113-157).  Returns the chosen move, the next stream index, and the updated
`straightCount`. -/
def chooseMove (rho : ℕ → ℕ) (endP : Position) (st : CarveState)
    (validMoves : List MoveOption) : MoveOption × ℕ × ℕ :=
  let dummy : MoveOption := ⟨st.current, .up⟩
  if decide (st.straightCount ≥ 1) && st.lastDirection.isSome &&
     decide (validMoves.length > 1) then
    let turnMoves := validMoves.filter (fun m => decide (some m.dir ≠ st.lastDirection))
    if decide (turnMoves.length > 0) then
      let sorted := sortByDistanceToEnd turnMoves endP
      if decide (rho st.i % 100 < 60) then
        (sorted.headD dummy, st.i + 1, 0)
      else
        (sorted.getD (rho (st.i + 1) % sorted.length) dummy, st.i + 2, 0)
    else
      let chosenMove := validMoves.getD (rho st.i % validMoves.length) dummy
      (chosenMove, st.i + 1,
        if some chosenMove.dir = st.lastDirection then st.straightCount + 1 else 0)
  else
    if decide (rho st.i % 100 < 40) && decide (validMoves.length > 0) then
      let sorted := sortByDistanceToEnd validMoves endP
      let chosenMove := sorted.headD dummy
      (chosenMove, st.i + 1,
        if some chosenMove.dir = st.lastDirection then st.straightCount + 1 else 0)
    else
      let chosenMove := validMoves.getD (rho (st.i + 1) % validMoves.length) dummy
      (chosenMove, st.i + 2,
        if some chosenMove.dir = st.lastDirection then st.straightCount + 1 else 0)

/-- The opportunistic 2x2 room carving (`generateGrid`, lines 164-197),
entered after the cursor has moved to `current`.  One draw is consumed
exactly when `roomCount < maxRooms` (JS `&&` short-circuit).  In the JS
source the three cell reads of `canPlaceRoom` happen before its bounds
conjuncts, but out-of-bounds reads yield `undefined === 0 = false` there
while `cellAt` defaults to `0 = 0 = true` here; the trailing bounds
conjuncts make the conjunction identical in both semantics.  Returns the
grid, the room count, and the next stream index. -/
def tryRoom (rho : ℕ → ℕ) (endP : Position) (grid : Grid) (current : Position)
    (pathLen roomCount i : ℕ) : Grid × ℕ × ℕ :=
  if decide (roomCount < maxRooms) then
    let r := rho i % 100
    let distanceToEnd := getDistance current endP
    if decide (r < 12) && decide (pathLen > 5) && decide (distanceToEnd > 5) &&
       decide (current.x > 1) && decide (current.x < GRID_SIZE - 3) &&
       decide (current.y > 1) && decide (current.y < GRID_SIZE - 3) then
      let roomX := current.x
      let roomY := current.y
      let canPlaceRoom :=
        decide (cellAt grid ⟨roomX + 1, roomY⟩ = 0) &&
        decide (cellAt grid ⟨roomX, roomY + 1⟩ = 0) &&
        decide (cellAt grid ⟨roomX + 1, roomY + 1⟩ = 0) &&
        decide (roomX + 1 < GRID_SIZE) && decide (roomY + 1 < GRID_SIZE)
      if canPlaceRoom then
        (setCell (setCell (setCell (setCell grid ⟨roomX, roomY⟩ 1)
            ⟨roomX + 1, roomY⟩ 1) ⟨roomX, roomY + 1⟩ 1) ⟨roomX + 1, roomY + 1⟩ 1,
          roomCount + 1, i + 1)
      else (grid, roomCount, i + 1)
    else (grid, roomCount, i + 1)
  else (grid, roomCount, i)

/-- One iteration of the carve loop body (`generateGrid`, lines 65-198):
`none` models the `break` taken when no valid move exists. -/
def carveStep (rho : ℕ → ℕ) (endP : Position) (st : CarveState) : Option CarveState :=
  let possibleMoves := possibleMovesAt st.current
  let validMoves := possibleMoves.filter (isValidMove st.grid)
  if validMoves.length = 0 then none
  else
    match chooseMove rho endP st validMoves with
    | (chosenMove, i1, straightCount1) =>
      let grid1 := setCell st.grid chosenMove.pos 1
      let pathLen1 := st.pathLen + 1
      match tryRoom rho endP grid1 chosenMove.pos pathLen1 st.roomCount i1 with
      | (grid2, roomCount2, i2) =>
        some { grid := grid2, current := chosenMove.pos, i := i2,
               lastDirection := some chosenMove.dir, straightCount := straightCount1,
               roomCount := roomCount2, pathLen := pathLen1 }

/-- The carve loop `while (current ≠ end) {...}` with explicit fuel.  Returns
the final state, the number of iterations executed, and `true` iff the loop
left through its own exit condition or `break` (rather than fuel running
out).  `carve_exits_naturally` below shows fuel 100 is never exhausted, so
with fuel 100 this is the source loop exactly. -/
def carve (rho : ℕ → ℕ) (endP : Position) : ℕ → CarveState → CarveState × ℕ × Bool
  | 0, st => (st, 0, false)
  | fuel + 1, st =>
    if decide (st.current = endP) then (st, 0, true)
    else
      match carveStep rho endP st with
      | none => (st, 0, true)
      | some st1 =>
        match carve rho endP fuel st1 with
        | (stf, iters, flag) => (stf, iters + 1, flag)

/-- The body of the fallback direct Manhattan walk, with explicit fuel: each
step moves the cursor one cell toward `endP` (first reducing x, then y) and
marks it as path.  One unit of fuel is spent per step; the walk takes exactly
`getDistance current endP` steps, so the entry point `directWalk` below hands
it exactly that much fuel and the base case `fuel = 0` is reached only with
`current = endP`. -/
def directWalkAux : ℕ → Grid → Position → Position → Grid × Position × ℕ
  | 0, grid, current, _ => (grid, current, 0)
  | fuel + 1, grid, current, endP =>
    if current = endP then (grid, current, 0)
    else
      let next : Position :=
        if current.x < endP.x then ⟨current.x + 1, current.y⟩
        else if current.x > endP.x then ⟨current.x - 1, current.y⟩
        else if current.y < endP.y then ⟨current.x, current.y + 1⟩
        else ⟨current.x, current.y - 1⟩
      match directWalkAux fuel (setCell grid next 1) next endP with
      | (gridF, finalPos, steps) => (gridF, finalPos, steps + 1)

/-- The fallback direct Manhattan walk (`generateGrid`, lines 200-214).
Returns the final grid, the final cursor (the end cell), and the number of
steps taken. -/
def directWalk (grid : Grid) (current endP : Position) : Grid × Position × ℕ :=
  directWalkAux (getDistance current endP) grid current endP

/-- The all-walls 10x10 initial grid of `generateGrid`. -/
def emptyGrid : Grid := List.replicate 10 (List.replicate 10 0)

/-- The rejection-sampling `do {...} while` of `generateGrid` (lines 38-51)
picking start and end, with explicit fuel (the loop retries for ever on a
stream that keeps producing too-close pairs).  Returns the pair together
with the next stream index. -/
def sampleStartEnd (rho : ℕ → ℕ) : ℕ → ℕ → Option (Position × Position × ℕ)
  | 0, _ => none
  | fuel + 1, i =>
    let start : Position := ⟨((rho i % 10 : ℕ) : ℤ), ((rho (i + 1) % 10 : ℕ) : ℤ)⟩
    let endP : Position := ⟨((rho (i + 2) % 10 : ℕ) : ℤ), ((rho (i + 3) % 10 : ℕ) : ℤ)⟩
    if (decide (start.x = endP.x) && decide (start.y = endP.y)) ||
       decide (getDistance start endP < 5) then
      sampleStartEnd rho fuel (i + 4)
    else some (start, endP, i + 4)

/-- `generateGrid` from `gameLogic.ts`.  `fuel` bounds only the start/end
rejection sampling; the carve loop runs with fuel 100, which
`carve_exits_naturally` shows is never exhausted (the loop adds a path cell
per iteration to a 100-cell grid), and the fallback walk is total. -/
def generateGrid (rho : ℕ → ℕ) (fuel : ℕ) : Option (Grid × Position × Position) :=
  match sampleStartEnd rho fuel 0 with
  | none => none
  | some (start, endP, i) =>
    let grid0 := setCell (setCell emptyGrid start 1) endP 1
    let st0 : CarveState :=
      { grid := grid0, current := start, i := i, lastDirection := none,
        straightCount := 0, roomCount := 0, pathLen := 1 }
    let stf := (carve rho endP 100 st0).1
    let gridF := (directWalk stf.grid stf.current endP).1
    some (gridF, start, endP)

/-! ### Grid cell lemmas -/

/-- Well-formed grid: the 10x10 shape `generateGrid` creates and preserves. -/
def WF (grid : Grid) : Prop :=
  grid.length = 10 ∧ ∀ row ∈ grid, row.length = 10

theorem WF_emptyGrid : WF emptyGrid := by
  unfold WF emptyGrid
  constructor
  · simp
  · intro row hrow
    rw [List.eq_of_mem_replicate hrow]
    simp

theorem WF_setCell (grid : Grid) (p : Position) (v : ℕ) (h : WF grid) :
    WF (setCell grid p v) := by
  obtain ⟨hlen, hrow⟩ := h
  unfold WF setCell
  constructor
  · simpa using hlen
  · intro row hmem
    by_cases hy : p.y.toNat < grid.length
    · rcases List.mem_or_eq_of_mem_set hmem with hold | hnew
      · exact hrow row hold
      · subst hnew
        rw [List.length_set, List.getD_eq_getElem?_getD, List.getElem?_eq_getElem hy]
        exact hrow _ (List.getElem_mem hy)
    · rw [List.set_eq_of_length_le (by omega)] at hmem
      exact hrow row hmem

theorem cellAt_setCell_or (grid : Grid) (p q : Position) (v : ℕ) :
    cellAt (setCell grid p v) q = cellAt grid q ∨ cellAt (setCell grid p v) q = v := by
  unfold cellAt setCell
  simp only [List.getD_eq_getElem?_getD]
  by_cases hy : p.y.toNat = q.y.toNat
  · rw [← hy]
    by_cases hylt : p.y.toNat < grid.length
    · rw [List.getElem?_set_self hylt, Option.getD_some]
      by_cases hx : p.x.toNat = q.x.toNat
      · rw [← hx]
        by_cases hxlt : p.x.toNat < (grid[p.y.toNat]?.getD []).length
        · rw [List.getElem?_set_self hxlt, Option.getD_some]
          right; rfl
        · rw [List.getElem?_eq_none (by rw [List.length_set]; omega),
            List.getElem?_eq_none (by omega)]
          left; rfl
      · rw [List.getElem?_set_ne hx]
        left; rfl
    · rw [List.set_eq_of_length_le (by omega)]
      left; rfl
  · rw [List.getElem?_set_ne hy]
    left; rfl

theorem cellAt_setCell_self (grid : Grid) (p : Position) (v : ℕ)
    (hwf : WF grid) (hv : isValidPosition p = true) :
    cellAt (setCell grid p v) p = v := by
  obtain ⟨hlen, hrow⟩ := hwf
  simp only [isValidPosition, Bool.and_eq_true, decide_eq_true_eq, GRID_SIZE] at hv
  have hylt : p.y.toNat < grid.length := by omega
  have hrowlen : (grid.getD p.y.toNat []).length = 10 := by
    rw [List.getD_eq_getElem?_getD, List.getElem?_eq_getElem hylt]
    exact hrow _ (List.getElem_mem hylt)
  unfold cellAt setCell
  simp only [List.getD_eq_getElem?_getD]
  rw [List.getElem?_set_self hylt, Option.getD_some,
    List.getElem?_set_self (by rw [List.getD_eq_getElem?_getD] at hrowlen; omega),
    Option.getD_some]

theorem isPath_setCell_mono (grid : Grid) (p q : Position)
    (h : isPath grid q = true) : isPath (setCell grid p 1) q = true := by
  unfold isPath at h ⊢
  by_cases hv : isValidPosition q = true
  · simp only [hv] at h ⊢
    simp only [Bool.true_eq_false, if_false, decide_eq_true_eq] at h ⊢
    rcases cellAt_setCell_or grid p q 1 with hsame | hone
    · rw [hsame]; exact h
    · exact hone
  · rw [Bool.not_eq_true] at hv
    simp [hv] at h

theorem isPath_setCell_self (grid : Grid) (p : Position)
    (hwf : WF grid) (hv : isValidPosition p = true) :
    isPath (setCell grid p 1) p = true := by
  unfold isPath
  rw [hv]
  simp only [Bool.true_eq_false, if_false]
  rw [cellAt_setCell_self grid p 1 hwf hv]
  simp

/-! ### Reachability along path cells -/

/-- `Reaches grid a b`: there is a chain of orthogonally adjacent Path cells
of `grid` from `a` to `b` (Manhattan-distance-1 steps, every cell on the
chain a Path cell). -/
inductive Reaches (grid : Grid) : Position → Position → Prop
  | refl (p : Position) (h : isPath grid p = true) : Reaches grid p p
  | step (p q r : Position) (hpq : Reaches grid p q) (hadj : getDistance q r = 1)
      (hr : isPath grid r = true) : Reaches grid p r

theorem Reaches.mono (grid grid2 : Grid) (a b : Position)
    (hmono : ∀ q, isPath grid q = true → isPath grid2 q = true)
    (h : Reaches grid a b) : Reaches grid2 a b := by
  induction h with
  | refl hp => exact .refl _ (hmono _ hp)
  | step q r hpq hadj hr ih => exact .step _ q r ih hadj (hmono _ hr)

theorem Reaches.setCell (grid : Grid) (p a b : Position)
    (h : Reaches grid a b) : Reaches (setCell grid p 1) a b :=
  h.mono _ _ _ _ (fun q hq => isPath_setCell_mono grid p q hq)

/-! ### Carve-loop invariant -/

theorem headD_mem {α : Type} (l : List α) (d : α) (h : l ≠ []) : l.headD d ∈ l := by
  cases l with
  | nil => exact absurd rfl h
  | cons x xs => simp [List.headD]

theorem getD_mem {α : Type} (l : List α) (k : ℕ) (d : α) (h : k < l.length) :
    l.getD k d ∈ l := by
  rw [List.getD_eq_getElem?_getD, List.getElem?_eq_getElem h]
  exact List.getElem_mem h

theorem sortByDistanceToEnd_mem (moves : List MoveOption) (endP : Position)
    (m : MoveOption) (h : m ∈ sortByDistanceToEnd moves endP) : m ∈ moves :=
  (List.perm_insertionSort _ moves).mem_iff.mp h

theorem sortByDistanceToEnd_length (moves : List MoveOption) (endP : Position) :
    (sortByDistanceToEnd moves endP).length = moves.length :=
  (List.perm_insertionSort _ moves).length_eq

theorem chooseMove_mem (rho : ℕ → ℕ) (endP : Position) (st : CarveState)
    (validMoves : List MoveOption) (h : validMoves.length ≠ 0) :
    (chooseMove rho endP st validMoves).1 ∈ validMoves := by
  have hsortne : sortByDistanceToEnd validMoves endP ≠ [] := by
    intro hnil
    have hl := sortByDistanceToEnd_length validMoves endP
    rw [hnil] at hl
    simp only [List.length_nil] at hl
    omega
  unfold chooseMove
  dsimp only
  split
  · split
    · rename_i hturn
      rw [decide_eq_true_eq] at hturn
      have hturnne :
          sortByDistanceToEnd
            (validMoves.filter (fun m => decide (some m.dir ≠ st.lastDirection))) endP ≠ [] := by
        intro hnil
        have hl := sortByDistanceToEnd_length
          (validMoves.filter (fun m => decide (some m.dir ≠ st.lastDirection))) endP
        rw [hnil] at hl
        simp only [List.length_nil] at hl
        omega
      split
      · dsimp only
        exact List.mem_of_mem_filter
          (sortByDistanceToEnd_mem _ _ _ (headD_mem _ _ hturnne))
      · dsimp only
        refine List.mem_of_mem_filter (sortByDistanceToEnd_mem _ _ _ (getD_mem _ _ _ ?_))
        have hsl := sortByDistanceToEnd_length
          (validMoves.filter (fun m => decide (some m.dir ≠ st.lastDirection))) endP
        apply Nat.mod_lt
        omega
    · dsimp only
      exact getD_mem _ _ _ (Nat.mod_lt _ (by omega))
  · split
    · dsimp only
      exact sortByDistanceToEnd_mem _ _ _ (headD_mem _ _ hsortne)
    · dsimp only
      exact getD_mem _ _ _ (Nat.mod_lt _ (by omega))

theorem isValidMove_props (grid : Grid) (m : MoveOption) (h : isValidMove grid m = true) :
    isValidPosition m.pos = true ∧ cellAt grid m.pos ≠ 1 := by
  unfold isValidMove at h
  split_ifs at h with h1 h2
  constructor
  · simp only [Bool.or_eq_true, decide_eq_true_eq, GRID_SIZE] at h1
    push_neg at h1
    unfold isValidPosition
    simp only [Bool.and_eq_true, decide_eq_true_eq, GRID_SIZE]
    omega
  · intro hc
    rw [hc] at h2
    simp at h2

theorem possibleMovesAt_dist (current : Position) (m : MoveOption)
    (h : m ∈ possibleMovesAt current) : getDistance current m.pos = 1 := by
  simp only [possibleMovesAt, List.mem_cons, List.not_mem_nil, or_false] at h
  rcases h with h | h | h | h <;> subst h <;> simp [getDistance] <;> omega

theorem tryRoom_isPath_mono (rho : ℕ → ℕ) (endP : Position) (grid : Grid)
    (current : Position) (pathLen roomCount i : ℕ) (q : Position)
    (h : isPath grid q = true) :
    isPath (tryRoom rho endP grid current pathLen roomCount i).1 q = true := by
  unfold tryRoom
  dsimp only
  split_ifs with c1 c2 c3
  · exact isPath_setCell_mono _ _ _ (isPath_setCell_mono _ _ _
      (isPath_setCell_mono _ _ _ (isPath_setCell_mono _ _ _ h)))
  · exact h
  · exact h
  · exact h

theorem tryRoom_WF (rho : ℕ → ℕ) (endP : Position) (grid : Grid)
    (current : Position) (pathLen roomCount i : ℕ) (h : WF grid) :
    WF (tryRoom rho endP grid current pathLen roomCount i).1 := by
  unfold tryRoom
  dsimp only
  split_ifs with c1 c2 c3
  · exact WF_setCell _ _ _ (WF_setCell _ _ _ (WF_setCell _ _ _ (WF_setCell _ _ _ h)))
  · exact h
  · exact h
  · exact h

/-- The invariant carried through the carve loop: well-formed grid, in-bounds
cursor, the cursor reachable from `start` along path cells, and the end cell
already a path cell. -/
def CarveInv (start endP : Position) (st : CarveState) : Prop :=
  WF st.grid ∧ isValidPosition st.current = true ∧
  Reaches st.grid start st.current ∧ isPath st.grid endP = true

theorem carveStep_inv (rho : ℕ → ℕ) (start endP : Position) (st st1 : CarveState)
    (hstep : carveStep rho endP st = some st1) (hinv : CarveInv start endP st) :
    CarveInv start endP st1 := by
  obtain ⟨hwf, hcur, hreach, hend⟩ := hinv
  unfold carveStep at hstep
  dsimp only at hstep
  split_ifs at hstep with hlen
  set validMoves := (possibleMovesAt st.current).filter (isValidMove st.grid) with hvm
  set chosen := (chooseMove rho endP st validMoves).1 with hch
  have hmem : chosen ∈ validMoves := chooseMove_mem rho endP st validMoves hlen
  have hvmove : isValidMove st.grid chosen = true :=
    List.of_mem_filter hmem
  have hposs : chosen ∈ possibleMovesAt st.current := List.mem_of_mem_filter hmem
  obtain ⟨hvalid, _⟩ := isValidMove_props st.grid chosen hvmove
  have hdist : getDistance st.current chosen.pos = 1 := possibleMovesAt_dist _ _ hposs
  have hwf1 : WF (setCell st.grid chosen.pos 1) := WF_setCell _ _ _ hwf
  have hreach1 : Reaches (setCell st.grid chosen.pos 1) start chosen.pos :=
    .step _ st.current _ (hreach.setCell _ _ _ _) hdist
      (isPath_setCell_self _ _ hwf hvalid)
  have hend1 : isPath (setCell st.grid chosen.pos 1) endP = true :=
    isPath_setCell_mono _ _ _ hend
  rw [Option.some.injEq] at hstep
  subst hstep
  refine ⟨tryRoom_WF _ _ _ _ _ _ _ hwf1, hvalid, ?_, ?_⟩
  · exact hreach1.mono _ _ _ _
      (fun q hq => tryRoom_isPath_mono _ _ _ _ _ _ _ _ hq)
  · exact tryRoom_isPath_mono _ _ _ _ _ _ _ _ hend1

theorem carve_inv (rho : ℕ → ℕ) (start endP : Position) (fuel : ℕ) (st : CarveState)
    (hinv : CarveInv start endP st) : CarveInv start endP (carve rho endP fuel st).1 := by
  induction fuel generalizing st with
  | zero => exact hinv
  | succ fuel ih =>
    unfold carve
    split_ifs with hcend
    · exact hinv
    · cases hstep : carveStep rho endP st with
      | none => exact hinv
      | some st1 =>
        dsimp only
        exact ih st1 (carveStep_inv rho start endP st st1 hstep hinv)

/-! ### Carve-loop termination: each iteration strictly enlarges the path set -/

/-- All 100 board positions. -/
def allPositions : List Position :=
  (List.range 100).map (fun k => ⟨((k % 10 : ℕ) : ℤ), ((k / 10 : ℕ) : ℤ)⟩)

/-- Number of Path cells of a grid. -/
def pathCount (grid : Grid) : ℕ :=
  allPositions.countP (fun p => decide (cellAt grid p = 1))

theorem allPositions_length : allPositions.length = 100 := by simp [allPositions]

theorem pathCount_le (grid : Grid) : pathCount grid ≤ 100 := by
  have h := List.countP_le_length (p := fun p => decide (cellAt grid p = 1))
    (l := allPositions)
  rwa [allPositions_length] at h

theorem mem_allPositions (p : Position) (h : isValidPosition p = true) :
    p ∈ allPositions := by
  simp only [isValidPosition, Bool.and_eq_true, decide_eq_true_eq, GRID_SIZE] at h
  cases p with
  | mk x y =>
    simp only at h
    obtain ⟨⟨⟨hx0, hx10⟩, hy0⟩, hy10⟩ := h
    lift x to ℕ using hx0 with nx
    lift y to ℕ using hy0 with ny
    have hx : nx < 10 := by exact_mod_cast hx10
    have hy : ny < 10 := by exact_mod_cast hy10
    unfold allPositions
    refine List.mem_map.mpr ⟨ny * 10 + nx, List.mem_range.mpr (by omega), ?_⟩
    simp only [Position.mk.injEq]
    constructor <;> (push_cast; omega)

theorem cellAt_setCell_keeps (grid : Grid) (p q : Position)
    (h : cellAt grid q = 1) : cellAt (setCell grid p 1) q = 1 := by
  rcases cellAt_setCell_or grid p q 1 with hsame | hone
  · rw [hsame]; exact h
  · exact hone

theorem pathCount_setCell_mono (grid : Grid) (p : Position) :
    pathCount grid ≤ pathCount (setCell grid p 1) := by
  apply List.countP_mono_left
  intro q hq hcell
  rw [decide_eq_true_eq] at hcell ⊢
  exact cellAt_setCell_keeps grid p q hcell

theorem pathCount_setCell_strict (grid : Grid) (p : Position)
    (hwf : WF grid) (hv : isValidPosition p = true) (hnp : cellAt grid p ≠ 1) :
    pathCount grid < pathCount (setCell grid p 1) := by
  obtain ⟨s, t, hst⟩ := List.append_of_mem (mem_allPositions p hv)
  unfold pathCount
  rw [hst]
  simp only [List.countP_append, List.countP_cons]
  have h1 : (decide (cellAt grid p = 1)) = false := by simp [hnp]
  have h2 : (decide (cellAt (setCell grid p 1) p = 1)) = true := by
    simp [cellAt_setCell_self grid p 1 hwf hv]
  rw [h1, h2]
  simp only [Bool.false_eq_true, if_false, if_true]
  have hs : s.countP (fun q => decide (cellAt grid q = 1)) ≤
      s.countP (fun q => decide (cellAt (setCell grid p 1) q = 1)) := by
    apply List.countP_mono_left
    intro q hq hcell
    rw [decide_eq_true_eq] at hcell ⊢
    exact cellAt_setCell_keeps grid p q hcell
  have ht : t.countP (fun q => decide (cellAt grid q = 1)) ≤
      t.countP (fun q => decide (cellAt (setCell grid p 1) q = 1)) := by
    apply List.countP_mono_left
    intro q hq hcell
    rw [decide_eq_true_eq] at hcell ⊢
    exact cellAt_setCell_keeps grid p q hcell
  omega

theorem tryRoom_pathCount (rho : ℕ → ℕ) (endP : Position) (grid : Grid)
    (current : Position) (pathLen roomCount i : ℕ) :
    pathCount grid ≤ pathCount (tryRoom rho endP grid current pathLen roomCount i).1 := by
  unfold tryRoom
  dsimp only
  split_ifs with c1 c2 c3
  · calc pathCount grid
        ≤ pathCount (setCell grid ⟨current.x, current.y⟩ 1) := pathCount_setCell_mono _ _
      _ ≤ pathCount (setCell (setCell grid ⟨current.x, current.y⟩ 1)
            ⟨current.x + 1, current.y⟩ 1) := pathCount_setCell_mono _ _
      _ ≤ pathCount (setCell (setCell (setCell grid ⟨current.x, current.y⟩ 1)
            ⟨current.x + 1, current.y⟩ 1) ⟨current.x, current.y + 1⟩ 1) :=
          pathCount_setCell_mono _ _
      _ ≤ _ := pathCount_setCell_mono _ _
  · exact Nat.le_refl _
  · exact Nat.le_refl _
  · exact Nat.le_refl _

theorem carveStep_WF (rho : ℕ → ℕ) (endP : Position) (st st1 : CarveState)
    (hstep : carveStep rho endP st = some st1) (hwf : WF st.grid) : WF st1.grid := by
  unfold carveStep at hstep
  dsimp only at hstep
  split_ifs at hstep with hlen
  rw [Option.some.injEq] at hstep
  subst hstep
  exact tryRoom_WF _ _ _ _ _ _ _ (WF_setCell _ _ _ hwf)

theorem carveStep_pathCount (rho : ℕ → ℕ) (endP : Position) (st st1 : CarveState)
    (hstep : carveStep rho endP st = some st1) (hwf : WF st.grid) :
    pathCount st.grid < pathCount st1.grid := by
  unfold carveStep at hstep
  dsimp only at hstep
  split_ifs at hstep with hlen
  rw [Option.some.injEq] at hstep
  subst hstep
  dsimp only
  set validMoves := (possibleMovesAt st.current).filter (isValidMove st.grid) with hvm
  set chosen := (chooseMove rho endP st validMoves).1 with hch
  have hmem : chosen ∈ validMoves := chooseMove_mem rho endP st validMoves hlen
  obtain ⟨hvalid, hnp⟩ := isValidMove_props st.grid chosen (List.of_mem_filter hmem)
  calc pathCount st.grid
      < pathCount (setCell st.grid chosen.pos 1) :=
        pathCount_setCell_strict st.grid chosen.pos hwf hvalid hnp
    _ ≤ _ := tryRoom_pathCount _ _ _ _ _ _ _

theorem carve_natural (rho : ℕ → ℕ) (endP : Position) (fuel : ℕ) (st : CarveState)
    (hwf : WF st.grid) (hfuel : 100 < fuel + pathCount st.grid) :
    (carve rho endP fuel st).2.2 = true := by
  induction fuel generalizing st with
  | zero =>
    exfalso
    have := pathCount_le st.grid
    omega
  | succ fuel ih =>
    unfold carve
    split_ifs with hcend
    · rfl
    · cases hstep : carveStep rho endP st with
      | none => rfl
      | some st1 =>
        dsimp only
        have h1 := carveStep_pathCount rho endP st st1 hstep hwf
        exact ih st1 (carveStep_WF rho endP st st1 hstep hwf) (by omega)

theorem carve_iters (rho : ℕ → ℕ) (endP : Position) (fuel : ℕ) (st : CarveState)
    (hwf : WF st.grid) :
    (carve rho endP fuel st).2.1 + pathCount st.grid ≤
      pathCount (carve rho endP fuel st).1.grid := by
  induction fuel generalizing st with
  | zero => simp [carve]
  | succ fuel ih =>
    unfold carve
    split_ifs with hcend
    · simp
    · cases hstep : carveStep rho endP st with
      | none => simp
      | some st1 =>
        dsimp only
        have h1 := carveStep_pathCount rho endP st st1 hstep hwf
        have h2 := ih st1 (carveStep_WF rho endP st st1 hstep hwf)
        rcases hc : carve rho endP fuel st1 with ⟨stf, iters, flag⟩
        rw [hc] at h2
        dsimp only at h2 ⊢
        omega

theorem carve_iters_le (rho : ℕ → ℕ) (endP : Position) (fuel : ℕ) (st : CarveState)
    (hwf : WF st.grid) : (carve rho endP fuel st).2.1 ≤ 100 := by
  have h1 := carve_iters rho endP fuel st hwf
  have h2 := pathCount_le (carve rho endP fuel st).1.grid
  omega

/-! ### Fallback direct walk: connectivity and step count -/

theorem directWalkAux_spec (fuel : ℕ) : ∀ (grid : Grid) (current endP start : Position),
    getDistance current endP ≤ fuel → WF grid → isValidPosition current = true →
    isValidPosition endP = true → Reaches grid start current →
    Reaches (directWalkAux fuel grid current endP).1 start endP ∧
      (directWalkAux fuel grid current endP).2.2 = getDistance current endP := by
  induction fuel with
  | zero =>
    intro grid current endP start hd hwf hcur hend hreach
    have hce : current = endP := by
      cases current with
      | mk cx cy =>
        cases endP with
        | mk ex ey =>
          simp only [getDistance] at hd
          simp only [Position.mk.injEq]
          omega
    subst hce
    exact ⟨hreach, by simp [directWalkAux, getDistance]⟩
  | succ d ih =>
    intro grid current endP start hd hwf hcur hend hreach
    unfold directWalkAux
    by_cases hce : current = endP
    · subst hce
      simp only [if_pos rfl]
      exact ⟨hreach, by simp [getDistance]⟩
    · simp only [if_neg hce]
      have hxy : current.x ≠ endP.x ∨ current.y ≠ endP.y := by
        by_contra hcon
        push_neg at hcon
        exact hce (by cases current; cases endP; simp_all)
      simp only [isValidPosition, Bool.and_eq_true, decide_eq_true_eq, GRID_SIZE]
        at hcur hend
      set next : Position :=
        (if current.x < endP.x then ⟨current.x + 1, current.y⟩
         else if current.x > endP.x then ⟨current.x - 1, current.y⟩
         else if current.y < endP.y then ⟨current.x, current.y + 1⟩
         else ⟨current.x, current.y - 1⟩) with hnext
      have hprops : getDistance current next = 1 ∧
          getDistance next endP + 1 = getDistance current endP ∧
          isValidPosition next = true := by
        rw [hnext]
        rcases hxy with hxy | hxy <;>
          split_ifs with a b c <;>
          refine ⟨?_, ?_, ?_⟩ <;>
          simp only [getDistance, isValidPosition, Bool.and_eq_true,
            decide_eq_true_eq, GRID_SIZE] <;>
          (try dsimp only) <;>
          omega
      obtain ⟨hstep1, hdec, hvnext⟩ := hprops
      have hreach1 : Reaches (setCell grid next 1) start next :=
        .step _ current _ (hreach.setCell _ _ _ _) hstep1
          (isPath_setCell_self _ _ hwf hvnext)
      obtain ⟨hr1, hr2⟩ := ih (setCell grid next 1) next endP start (by omega)
        (WF_setCell _ _ _ hwf) hvnext (by
          simp only [isValidPosition, Bool.and_eq_true, decide_eq_true_eq, GRID_SIZE]
          omega) hreach1
      rcases hc : directWalkAux d (setCell grid next 1) next endP with ⟨gF, pF, sF⟩
      rw [hc] at hr1 hr2
      dsimp only at hr1 hr2 ⊢
      exact ⟨hr1, by omega⟩

theorem directWalk_spec (grid : Grid) (current endP start : Position)
    (hwf : WF grid) (hcur : isValidPosition current = true)
    (hend : isValidPosition endP = true) (hreach : Reaches grid start current) :
    Reaches (directWalk grid current endP).1 start endP ∧
      (directWalk grid current endP).2.2 = getDistance current endP := by
  unfold directWalk
  exact directWalkAux_spec (getDistance current endP) grid current endP start
    (Nat.le_refl _) hwf hcur hend hreach

theorem directWalkAux_steps (fuel : ℕ) : ∀ (grid : Grid) (current endP : Position),
    getDistance current endP ≤ fuel →
    (directWalkAux fuel grid current endP).2.2 = getDistance current endP ∧
      (directWalkAux fuel grid current endP).2.1 = endP := by
  induction fuel with
  | zero =>
    intro grid current endP hd
    have hce : current = endP := by
      cases current with
      | mk cx cy =>
        cases endP with
        | mk ex ey =>
          simp only [getDistance] at hd
          simp only [Position.mk.injEq]
          omega
    subst hce
    exact ⟨by simp [directWalkAux, getDistance], rfl⟩
  | succ d ih =>
    intro grid current endP hd
    unfold directWalkAux
    by_cases hce : current = endP
    · subst hce
      simp only [if_pos rfl]
      exact ⟨by simp [getDistance], rfl⟩
    · simp only [if_neg hce]
      have hxy : current.x ≠ endP.x ∨ current.y ≠ endP.y := by
        by_contra hcon
        push_neg at hcon
        exact hce (by cases current; cases endP; simp_all)
      set next : Position :=
        (if current.x < endP.x then ⟨current.x + 1, current.y⟩
         else if current.x > endP.x then ⟨current.x - 1, current.y⟩
         else if current.y < endP.y then ⟨current.x, current.y + 1⟩
         else ⟨current.x, current.y - 1⟩) with hnext
      have hdec : getDistance next endP + 1 = getDistance current endP := by
        rw [hnext]
        rcases hxy with hxy | hxy <;>
          split_ifs with a b c <;>
          simp only [getDistance] <;>
          (try dsimp only) <;>
          omega
      obtain ⟨hr1, hr2⟩ := ih (setCell grid next 1) next endP (by omega)
      rcases hc : directWalkAux d (setCell grid next 1) next endP with ⟨gF, pF, sF⟩
      rw [hc] at hr1 hr2
      dsimp only at hr1 hr2 ⊢
      exact ⟨by omega, hr2⟩

theorem directWalk_steps (grid : Grid) (current endP : Position) :
    (directWalk grid current endP).2.2 = getDistance current endP ∧
      (directWalk grid current endP).2.1 = endP := by
  unfold directWalk
  exact directWalkAux_steps (getDistance current endP) grid current endP (Nat.le_refl _)

theorem getDistance_le_18 (p q : Position) (hp : isValidPosition p = true)
    (hq : isValidPosition q = true) : getDistance p q ≤ 18 := by
  simp only [isValidPosition, Bool.and_eq_true, decide_eq_true_eq, GRID_SIZE] at hp hq
  simp only [getDistance]
  omega

/-! ### Start/end rejection sampling -/

theorem sampleStartEnd_spec (rho : ℕ → ℕ) (fuel : ℕ) : ∀ (i j : ℕ) (s e : Position),
    sampleStartEnd rho fuel i = some (s, e, j) →
    isValidPosition s = true ∧ isValidPosition e = true ∧ 5 ≤ getDistance s e := by
  induction fuel with
  | zero => intro i j s e h; simp [sampleStartEnd] at h
  | succ fuel ih =>
    intro i j s e h
    unfold sampleStartEnd at h
    dsimp only at h
    split_ifs at h with hcond
    · exact ih _ _ _ _ h
    · rw [Option.some.injEq] at h
      rw [Prod.mk.injEq] at h
      obtain ⟨hs, he⟩ := h
      rw [Prod.mk.injEq] at he
      obtain ⟨he, _⟩ := he
      subst hs
      subst he
      refine ⟨?_, ?_, ?_⟩
      · simp only [isValidPosition, Bool.and_eq_true, decide_eq_true_eq, GRID_SIZE]
        have h1 := Nat.mod_lt (rho i) (show 0 < 10 by omega)
        have h2 := Nat.mod_lt (rho (i + 1)) (show 0 < 10 by omega)
        refine ⟨⟨⟨by positivity, ?_⟩, by positivity⟩, ?_⟩ <;> exact_mod_cast (by omega)
      · simp only [isValidPosition, Bool.and_eq_true, decide_eq_true_eq, GRID_SIZE]
        have h1 := Nat.mod_lt (rho (i + 2)) (show 0 < 10 by omega)
        have h2 := Nat.mod_lt (rho (i + 3)) (show 0 < 10 by omega)
        refine ⟨⟨⟨by positivity, ?_⟩, by positivity⟩, ?_⟩ <;> exact_mod_cast (by omega)
      · simp only [Bool.or_eq_true, Bool.and_eq_true, decide_eq_true_eq, not_or,
          Bool.not_eq_true] at hcond
        omega

/-- On the all-zeros draw stream, the rejection sampler retries for ever
(start and end keep coming out equal). -/
theorem sampleStartEnd_zero_none (fuel : ℕ) : ∀ i : ℕ,
    sampleStartEnd (fun _ => 0) fuel i = none := by
  induction fuel with
  | zero => intro i; rfl
  | succ fuel ih =>
    intro i
    unfold sampleStartEnd
    rw [if_pos (by decide)]
    exact ih (i + 4)

/-! ### The grid generator: connectivity and termination -/

theorem generateGrid_reaches (rho : ℕ → ℕ) (fuel : ℕ) (grid : Grid)
    (start endP : Position) (h : generateGrid rho fuel = some (grid, start, endP)) :
    Reaches grid start endP := by
  unfold generateGrid at h
  cases hs : sampleStartEnd rho fuel 0 with
  | none => rw [hs] at h; simp at h
  | some res =>
    obtain ⟨s, e, j⟩ := res
    rw [hs] at h
    dsimp only at h
    obtain ⟨hvs, hve, _⟩ := sampleStartEnd_spec rho fuel 0 j s e hs
    rw [Option.some.injEq, Prod.mk.injEq] at h
    obtain ⟨hgrid, h2⟩ := h
    rw [Prod.mk.injEq] at h2
    obtain ⟨hstart, hendP⟩ := h2
    subst hgrid
    subst hstart
    subst hendP
    have hwf0 : WF (setCell (setCell emptyGrid s 1) e 1) :=
      WF_setCell _ _ _ (WF_setCell _ _ _ WF_emptyGrid)
    have hcell0 : cellAt (setCell (setCell emptyGrid s 1) e 1) s = 1 := by
      rcases cellAt_setCell_or (setCell emptyGrid s 1) e s 1 with h1 | h1
      · rw [h1]
        exact cellAt_setCell_self emptyGrid s 1 WF_emptyGrid hvs
      · exact h1
    have hstart0 : isPath (setCell (setCell emptyGrid s 1) e 1) s = true := by
      unfold isPath
      rw [hvs]
      simp [hcell0]
    have hend0 : isPath (setCell (setCell emptyGrid s 1) e 1) e = true :=
      isPath_setCell_self _ _ (WF_setCell _ _ _ WF_emptyGrid) hve
    have hinv : CarveInv s e
        { grid := setCell (setCell emptyGrid s 1) e 1, current := s, i := j,
          lastDirection := none, straightCount := 0, roomCount := 0, pathLen := 1 } :=
      ⟨hwf0, hvs, .refl s hstart0, hend0⟩
    have hinvf := carve_inv rho s e 100 _ hinv
    obtain ⟨hwff, hcurf, hreachf, hendf⟩ := hinvf
    exact (directWalk_spec _ _ e s hwff hcurf hve hreachf).1

theorem generateGrid_isSome_of_sample (rho : ℕ → ℕ) (fuel : ℕ)
    (h : (sampleStartEnd rho fuel 0).isSome = true) :
    (generateGrid rho fuel).isSome = true := by
  unfold generateGrid
  cases hs : sampleStartEnd rho fuel 0 with
  | none => rw [hs] at h; simp at h
  | some res =>
    obtain ⟨s, e, j⟩ := res
    rfl

/-! ### Claim C1 -/

/-- A concrete draw stream for witnesses: start (0,0), end (9,0). -/
def rhoW : ℕ → ℕ := fun n => if n = 2 then 9 else 0

/-- The grid `generateGrid rhoW 1` produces. -/
def gridW : Grid :=
  [[1, 1, 1, 0, 1, 1, 1, 0, 0, 1], [0, 0, 1, 1, 1, 0, 1, 1, 1, 1],
   [0, 0, 0, 0, 0, 0, 0, 0, 1, 1], [0, 0, 0, 0, 0, 0, 0, 0, 0, 1],
   [0, 0, 0, 0, 0, 0, 0, 0, 1, 1], [0, 0, 0, 0, 0, 0, 0, 0, 1, 1],
   [0, 0, 0, 0, 0, 0, 0, 0, 1, 1], [0, 0, 0, 0, 0, 0, 1, 1, 1, 1],
   [0, 0, 0, 0, 0, 0, 1, 0, 1, 1], [0, 0, 0, 0, 0, 0, 1, 1, 1, 0]]

/-- C1 (counterexample): the claim "the generator never fails to produce a
connected grid, for every sequence of random draws" is false as stated: on
the all-zeros draw stream the start/end rejection sampling of `generateGrid`
retries for ever (start = end = (0,0) on every attempt), so no amount of fuel
makes it produce a grid at all. -/
theorem generateGrid_not_total_on_all_streams :
    ¬ (∀ rho : ℕ → ℕ, ∃ (fuel : ℕ) (grid : Grid) (s e : Position),
        generateGrid rho fuel = some (grid, s, e)) := by
  intro h
  obtain ⟨fuel, grid, s, e, hsome⟩ := h (fun _ => 0)
  unfold generateGrid at hsome
  rw [sampleStartEnd_zero_none fuel 0] at hsome
  exact Option.noConfusion hsome

/-- C1 (amended): every grid `generateGrid` returns comes with a path of
orthogonally adjacent Path cells connecting its returned start to its
returned end — for every sequence of random draws; and generation succeeds
whenever the start/end rejection sampling succeeds (the carve loop and the
fallback walk never fail). -/
theorem generateGrid_connected :
    (∀ (rho : ℕ → ℕ) (fuel : ℕ) (grid : Grid) (start endP : Position),
      generateGrid rho fuel = some (grid, start, endP) → Reaches grid start endP) ∧
    (∀ (rho : ℕ → ℕ) (fuel : ℕ), (sampleStartEnd rho fuel 0).isSome = true →
      (generateGrid rho fuel).isSome = true) :=
  ⟨generateGrid_reaches, generateGrid_isSome_of_sample⟩

set_option maxRecDepth 100000 in
set_option maxHeartbeats 1000000 in
/-- C1 witness: on the concrete stream `rhoW`, generation succeeds and the
produced grid is connected from (0,0) to (9,0). -/
theorem generateGrid_connected_witness :
    Reaches gridW ⟨0, 0⟩ ⟨9, 0⟩ ∧ (generateGrid rhoW 1).isSome = true :=
  ⟨generateGrid_connected.1 rhoW 1 gridW ⟨0, 0⟩ ⟨9, 0⟩ (by decide),
   generateGrid_connected.2 rhoW 1 (by decide)⟩

/-! ### Claim C7 -/

/-- C7 (counterexample): "generateGrid terminates for every sequence of
random draws" is false as stated: the start/end rejection sampling diverges
on the all-zeros stream. -/
theorem sampleStartEnd_not_total :
    ¬ (∀ rho : ℕ → ℕ, ∃ fuel : ℕ, (sampleStartEnd rho fuel 0).isSome = true) := by
  intro h
  obtain ⟨fuel, hs⟩ := h (fun _ => 0)
  rw [sampleStartEnd_zero_none fuel 0] at hs
  simp at hs

/-- C7 (amended): apart from the start/end rejection sampling, `generateGrid`
terminates for every sequence of random draws: (a) each carve-loop iteration
strictly enlarges the set of Path cells; (b) hence, from the initial
grid, the carve loop exits through its own condition (never by fuel) within
at most 100 iterations; (c) the fallback direct Manhattan walk reaches the
end cell in at most 20 = 2 x grid-dimension steps; (d) `generateGrid`
produces a grid whenever the rejection sampling succeeds. -/
theorem generateGrid_terminates_after_sampling :
    (∀ (rho : ℕ → ℕ) (endP : Position) (st st1 : CarveState),
      carveStep rho endP st = some st1 → WF st.grid →
      pathCount st.grid < pathCount st1.grid) ∧
    (∀ (rho : ℕ → ℕ) (i : ℕ) (start endP : Position),
      isValidPosition start = true → isValidPosition endP = true →
      (carve rho endP 100
          { grid := setCell (setCell emptyGrid start 1) endP 1, current := start,
            i := i, lastDirection := none, straightCount := 0, roomCount := 0,
            pathLen := 1 }).2.2 = true ∧
        (carve rho endP 100
          { grid := setCell (setCell emptyGrid start 1) endP 1, current := start,
            i := i, lastDirection := none, straightCount := 0, roomCount := 0,
            pathLen := 1 }).2.1 ≤ 100) ∧
    (∀ (grid : Grid) (current endP : Position),
      isValidPosition current = true → isValidPosition endP = true →
      (directWalk grid current endP).2.2 ≤ 20 ∧
        (directWalk grid current endP).2.1 = endP) ∧
    (∀ (rho : ℕ → ℕ) (fuel : ℕ), (sampleStartEnd rho fuel 0).isSome = true →
      (generateGrid rho fuel).isSome = true) := by
  refine ⟨carveStep_pathCount, ?_, ?_, generateGrid_isSome_of_sample⟩
  · intro rho i start endP hvs hve
    have hwf0 : WF (setCell (setCell emptyGrid start 1) endP 1) :=
      WF_setCell _ _ _ (WF_setCell _ _ _ WF_emptyGrid)
    have hcell0 : cellAt (setCell (setCell emptyGrid start 1) endP 1) start = 1 := by
      rcases cellAt_setCell_or (setCell emptyGrid start 1) endP start 1 with h1 | h1
      · rw [h1]
        exact cellAt_setCell_self emptyGrid start 1 WF_emptyGrid hvs
      · exact h1
    have hpos : 0 < pathCount (setCell (setCell emptyGrid start 1) endP 1) := by
      rw [pathCount, List.countP_pos_iff]
      exact ⟨start, mem_allPositions start hvs, by simp [hcell0]⟩
    constructor
    · exact carve_natural rho endP 100 _ hwf0 (by dsimp only; omega)
    · exact carve_iters_le rho endP 100 _ hwf0
  · intro grid current endP hvc hve
    obtain ⟨hsteps, hfinal⟩ := directWalk_steps grid current endP
    have hd := getDistance_le_18 current endP hvc hve
    exact ⟨by omega, hfinal⟩

/-- C7 witness: the bounds instantiated at the concrete start (0,0) and end
(9,0) with the stream `rhoW`. -/
theorem generateGrid_terminates_after_sampling_witness :
    ((carve rhoW ⟨9, 0⟩ 100
        { grid := setCell (setCell emptyGrid ⟨0, 0⟩ 1) ⟨9, 0⟩ 1, current := ⟨0, 0⟩,
          i := 4, lastDirection := none, straightCount := 0, roomCount := 0,
          pathLen := 1 }).2.2 = true ∧
      (carve rhoW ⟨9, 0⟩ 100
        { grid := setCell (setCell emptyGrid ⟨0, 0⟩ 1) ⟨9, 0⟩ 1, current := ⟨0, 0⟩,
          i := 4, lastDirection := none, straightCount := 0, roomCount := 0,
          pathLen := 1 }).2.1 ≤ 100) ∧
    ((directWalk emptyGrid ⟨3, 4⟩ ⟨9, 0⟩).2.2 ≤ 20 ∧
      (directWalk emptyGrid ⟨3, 4⟩ ⟨9, 0⟩).2.1 = ⟨9, 0⟩) ∧
    (generateGrid rhoW 1).isSome = true :=
  ⟨generateGrid_terminates_after_sampling.2.1 rhoW 4 ⟨0, 0⟩ ⟨9, 0⟩ (by decide) (by decide),
   generateGrid_terminates_after_sampling.2.2.1 emptyGrid ⟨3, 4⟩ ⟨9, 0⟩
     (by decide) (by decide),
   generateGrid_terminates_after_sampling.2.2.2 rhoW 1 (by decide)⟩

/-! ### Claim C9 -/

/-- C9: `moveGoblin` does not depend on the player position: for the same
draws, any two player positions give the same result — goblins traverse the
player's cell without stopping and never steer toward the player.  (The
`playerPos` parameter is dead in the source, as its comments state.) -/
theorem moveGoblin_independent_of_player :
    ∀ (rho : ℕ → ℕ) (i : ℕ) (goblin : Goblin) (grid : Grid) (p1 p2 : Position),
      moveGoblin rho i goblin grid p1 = moveGoblin rho i goblin grid p2 :=
  fun _ _ _ _ _ _ => rfl

/-! ### Claim C4 -/

/-- C4 (counterexample): "moveGoblin never returns a position that is a Wall
cell or out of bounds" fails as universally stated: a goblin standing on a
Wall cell of the all-walls grid has no adjacent Path cell, stays put, and the
returned position is that Wall cell. -/
theorem moveGoblin_can_return_wall :
    ¬ (∀ (rho : ℕ → ℕ) (i : ℕ) (goblin : Goblin) (grid : Grid) (playerPos : Position),
        isPath grid (moveGoblin rho i goblin grid playerPos).position = true) := by
  intro h
  exact absurd (h (fun _ => 0) 0 ⟨1, ⟨0, 0⟩, .up⟩ emptyGrid ⟨5, 5⟩) (by decide)

/-- C4 (amended): `moveGoblin` returns the forward cell whenever that cell is
a Path cell; and in every case it either returns the goblin completely
unchanged (stationary) or a goblin whose position is a Path cell (in bounds,
not a Wall) — so the only way a Wall/out-of-bounds position comes back is as
the unchanged position of a goblin that was already there. -/
theorem moveGoblin_safe :
    ∀ (rho : ℕ → ℕ) (i : ℕ) (goblin : Goblin) (grid : Grid) (playerPos : Position),
      (isPath grid (getAdjacentPosition goblin.position goblin.direction) = true →
        moveGoblin rho i goblin grid playerPos =
          { goblin with
              position := getAdjacentPosition goblin.position goblin.direction }) ∧
      (moveGoblin rho i goblin grid playerPos = goblin ∨
        isPath grid (moveGoblin rho i goblin grid playerPos).position = true) := by
  intro rho i goblin grid playerPos
  constructor
  · intro hfwd
    unfold moveGoblin
    rw [if_pos hfwd]
  · unfold moveGoblin
    dsimp only
    split_ifs with h1 h2
    · right
      exact h1
    · left
      rfl
    · right
      set validDirections := directionList.filter
        (fun dir => isPath grid (getAdjacentPosition goblin.position dir)) with hvd
      have hmem : validDirections.getD (rho i % validDirections.length) .up ∈
          validDirections :=
        getD_mem _ _ _ (Nat.mod_lt _ (by omega))
      have hp : isPath grid (getAdjacentPosition goblin.position
          (validDirections.getD (rho i % validDirections.length) .up)) = true := by
        have h3 := List.of_mem_filter hmem
        simpa using h3
      exact hp

/-- C4 witness: a goblin facing a Path cell steps onto it, and on a concrete
grid the returned position of any move is a Path cell or unchanged. -/
theorem moveGoblin_safe_witness :
    moveGoblin rhoW 0 ⟨1, ⟨0, 0⟩, .right⟩ gridW ⟨5, 5⟩ =
      { id := 1, position := ⟨1, 0⟩, direction := .right } ∧
    (moveGoblin rhoW 0 ⟨2, ⟨9, 9⟩, .down⟩ gridW ⟨5, 5⟩ = ⟨2, ⟨9, 9⟩, .down⟩ ∨
      isPath gridW (moveGoblin rhoW 0 ⟨2, ⟨9, 9⟩, .down⟩ gridW ⟨5, 5⟩).position = true) :=
  ⟨(moveGoblin_safe rhoW 0 ⟨1, ⟨0, 0⟩, .right⟩ gridW ⟨5, 5⟩).1 (by decide),
   (moveGoblin_safe rhoW 0 ⟨2, ⟨9, 9⟩, .down⟩ gridW ⟨5, 5⟩).2⟩

/-! ### Claim C10 -/

/-- C10: a goblin standing on the player's cell (distance 0) is never
"approaching" — its next step always differs from the player's cell — so the
ambush guard "distance in {0,1} and approaching" used by Move and Backstab is
equivalent to "distance = 1 and approaching". -/
theorem ambush_distance_zero_vacuous :
    (∀ (g : Goblin) (p : Position), g.position = p →
      isGoblinApproachingPlayer g p = false) ∧
    (∀ (g : Goblin) (p : Position),
      isAmbushing p g =
        (decide (getDistance g.position p = 1) && isGoblinApproachingPlayer g p)) := by
  have happ0 : ∀ (g : Goblin) (p : Position), g.position = p →
      isGoblinApproachingPlayer g p = false := by
    intro g p hp
    subst hp
    unfold isGoblinApproachingPlayer
    cases hd : g.direction <;>
      simp only [getAdjacentPosition, hd] <;>
      simp <;>
      omega
  refine ⟨happ0, ?_⟩
  intro g p
  unfold isAmbushing
  by_cases h0 : getDistance g.position p = 0
  · have hpos : g.position = p := by
      cases hg : g.position
      cases p
      simp only [getDistance, hg] at h0
      simp only [Position.mk.injEq]
      omega
    rw [happ0 g p hpos]
    simp [h0]
  · by_cases h1 : getDistance g.position p = 1
    · simp [h0, h1]
    · simp [h0, h1]

/-- C10 witness: a goblin on the player's own cell is not approaching. -/
theorem ambush_distance_zero_vacuous_witness :
    isGoblinApproachingPlayer ⟨1, ⟨3, 3⟩, .up⟩ ⟨3, 3⟩ = false :=
  ambush_distance_zero_vacuous.1 ⟨1, ⟨3, 3⟩, .up⟩ ⟨3, 3⟩ rfl

/-! ### Claim C2 -/

/-- C2: in status Playing, if some goblin is at Manhattan distance 0 or 1
from the player and its next step lands on the player, then Move(direction)
ends with status Dead, for every direction — whether or not the target cell
is in bounds or a Path cell. -/
theorem move_with_ambush_dies :
    ∀ (gs : GameState) (d : Direction), gs.status = Status.playing →
    (∃ g ∈ gs.goblins,
      (getDistance g.position gs.playerPosition = 0 ∨
        getDistance g.position gs.playerPosition = 1) ∧
      isGoblinApproachingPlayer g gs.playerPosition = true) →
    (handleMove gs d).status = Status.dead := by
  intro gs d hst hex
  obtain ⟨g, hgmem, hdist, happ⟩ := hex
  have hamb : isAmbushing gs.playerPosition g = true := by
    unfold isAmbushing
    rcases hdist with h0 | h1
    · rw [if_neg (by simp [h0])]
      exact happ
    · rw [if_neg (by simp [h1])]
      exact happ
  unfold handleMove
  rw [if_neg (by simp [hst])]
  dsimp only
  have hsome : (gs.goblins.find? (isAmbushing gs.playerPosition)).isSome = true :=
    List.find?_isSome.mpr ⟨g, hgmem, hamb⟩
  cases hfind : gs.goblins.find? (isAmbushing gs.playerPosition) with
  | none =>
    rw [hfind] at hsome
    simp at hsome
  | some g0 =>
    split_ifs <;> rfl

/-- Concrete playing state for the C2 witness: player at (0,0), one goblin at
(0,1) facing up (its next step is the player's cell). -/
def gsW2 : GameState :=
  { grid := emptyGrid, playerPosition := ⟨0, 0⟩, startPosition := ⟨0, 0⟩,
    endPosition := ⟨9, 0⟩, trapPositions := [], goblins := [⟨1, ⟨0, 1⟩, .up⟩],
    status := .playing }

/-- C2 witness: moving (in any direction; here right) into the ambush kills
the player. -/
theorem move_with_ambush_dies_witness : (handleMove gsW2 .right).status = Status.dead :=
  move_with_ambush_dies gsW2 .right rfl
    ⟨⟨1, ⟨0, 1⟩, .up⟩, by decide, by decide, by decide⟩

/-! ### Claim C6 -/

/-- C6: the Hear handler never mutates `GameState`, for every direction,
every state and every value of the `isHearing` guard; in particular a call
made while the guard is set returns the state, the guard and no cues
unchanged, so repeated calls cause no additional mutation. -/
theorem hear_does_not_mutate_state :
    ∀ (gs : GameState) (isHearing : Bool) (d : Direction),
      (handleHear gs isHearing d).1 = gs ∧
      handleHear gs true d = (gs, true, []) := by
  intro gs ih d
  constructor
  · unfold handleHear
    dsimp only
    split_ifs <;> rfl
  · unfold handleHear
    rw [if_pos (Or.inl rfl)]

/-! ### Claim C3 -/

/-- C3: in status Playing, when a tap lands inside the double-tap window
(0 < elapsed < 300ms), no goblin satisfies the ambush condition, and some
goblin is at distance exactly 1 walking away from the player, the Backstab
handler removes exactly that goblin (the first such found) from the goblin
list and the status remains Playing. -/
theorem backstab_kills_retreating_goblin :
    ∀ (gs : GameState) (lastTapTime now : ℤ), gs.status = Status.playing →
    0 < now - lastTapTime → now - lastTapTime < 300 →
    (∀ g ∈ gs.goblins, isAmbushing gs.playerPosition g = false) →
    (∃ g ∈ gs.goblins, getDistance g.position gs.playerPosition = 1 ∧
      isGoblinWalkingAway g gs.playerPosition = true) →
    ∃ g ∈ gs.goblins, getDistance g.position gs.playerPosition = 1 ∧
      isGoblinWalkingAway g gs.playerPosition = true ∧
      (handleDoubleTap gs lastTapTime now).1.goblins =
        gs.goblins.filter (fun x => decide (x.id ≠ g.id)) ∧
      (handleDoubleTap gs lastTapTime now).1.status = Status.playing := by
  intro gs lastTapTime now hst h0 h300 hnoamb hex
  have hfind1 : gs.goblins.find? (isAmbushing gs.playerPosition) = none :=
    List.find?_eq_none.mpr (by
      intro g hg
      rw [hnoamb g hg]
      simp)
  obtain ⟨g, hgmem, hd1, hwalk⟩ := hex
  have htarget : isBackstabTarget gs.playerPosition g = true := by
    unfold isBackstabTarget
    rw [if_neg (by simp [hd1])]
    exact hwalk
  have hsome2 : (gs.goblins.find? (isBackstabTarget gs.playerPosition)).isSome = true :=
    List.find?_isSome.mpr ⟨g, hgmem, htarget⟩
  cases hfind2 : gs.goblins.find? (isBackstabTarget gs.playerPosition) with
  | none =>
    rw [hfind2] at hsome2
    simp at hsome2
  | some g0 =>
    have ht0 := List.find?_some hfind2
    have hmem0 := List.mem_of_find?_eq_some hfind2
    have hd0 : getDistance g0.position gs.playerPosition = 1 ∧
        isGoblinWalkingAway g0 gs.playerPosition = true := by
      unfold isBackstabTarget at ht0
      split_ifs at ht0 with hne
      exact ⟨by simpa using hne, ht0⟩
    have hres : handleDoubleTap gs lastTapTime now =
        ({ gs with goblins := gs.goblins.filter (fun x => decide (x.id ≠ g0.id)) }, 0) := by
      unfold handleDoubleTap
      rw [if_neg (show ¬ gs.status ≠ Status.playing by simp [hst])]
      dsimp only
      rw [if_pos (show (decide (0 < now - lastTapTime) &&
          decide (now - lastTapTime < 300)) = true by simp [h0, h300])]
      rw [hfind1]
      dsimp only
      rw [hfind2]
    refine ⟨g0, hmem0, hd0.1, hd0.2, ?_, ?_⟩
    · rw [hres]
    · rw [hres]
      exact hst

/-- Concrete playing state for the C3 witness: player at (0,0), one goblin at
(0,1) facing down (stepping away from the player). -/
def gsW3 : GameState :=
  { grid := emptyGrid, playerPosition := ⟨0, 0⟩, startPosition := ⟨0, 0⟩,
    endPosition := ⟨9, 0⟩, trapPositions := [], goblins := [⟨1, ⟨0, 1⟩, .down⟩],
    status := .playing }

/-- C3 witness: a double tap 100ms after the previous tap backstabs the
retreating goblin; the goblin list loses exactly that goblin and the status
stays Playing. -/
theorem backstab_kills_retreating_goblin_witness :
    ∃ g ∈ gsW3.goblins, getDistance g.position gsW3.playerPosition = 1 ∧
      isGoblinWalkingAway g gsW3.playerPosition = true ∧
      (handleDoubleTap gsW3 100 200).1.goblins =
        gsW3.goblins.filter (fun x => decide (x.id ≠ g.id)) ∧
      (handleDoubleTap gsW3 100 200).1.status = Status.playing :=
  backstab_kills_retreating_goblin gsW3 100 200 rfl (by decide) (by decide)
    (by decide) ⟨⟨1, ⟨0, 1⟩, .down⟩, by decide, by decide, by decide⟩

/-! ### Claim C8 -/

/-- Distinctness of the goblin ids of a state. -/
def IdsNodup (gs : GameState) : Prop :=
  (gs.goblins.map Goblin.id).Nodup

instance (gs : GameState) : Decidable (IdsNodup gs) := by
  unfold IdsNodup
  infer_instance

theorem moveGoblin_id (rho : ℕ → ℕ) (i : ℕ) (goblin : Goblin) (grid : Grid)
    (playerPos : Position) : (moveGoblin rho i goblin grid playerPos).id = goblin.id := by
  unfold moveGoblin
  dsimp only
  split_ifs <;> rfl

/-- C8: goblin ids are pairwise distinct within a level and never reused:
`generateGoblins` assigns the strictly ascending ids 1, 2, ... (hence
distinct); `moveGoblin` preserves a goblin's id; the move handler and the
goblin tick leave the id list unchanged; restart leaves the goblin list
unchanged; and the backstab handler only ever filters goblins out, so the id
list of the state stays a sublist of what it was — distinctness of
`GameState.goblins` ids is an invariant of every operation of the level. -/
theorem goblin_ids_invariant :
    (∀ (rho : ℕ → ℕ) (i : ℕ) (grid : Grid) (start endP playerPos : Position),
      (generateGoblins rho i grid start endP playerPos).map Goblin.id =
        List.range' 1 (generateGoblins rho i grid start endP playerPos).length ∧
      ((generateGoblins rho i grid start endP playerPos).map Goblin.id).Nodup) ∧
    (∀ (rho : ℕ → ℕ) (i : ℕ) (goblin : Goblin) (grid : Grid) (playerPos : Position),
      (moveGoblin rho i goblin grid playerPos).id = goblin.id) ∧
    (∀ (gs : GameState) (d : Direction), (handleMove gs d).goblins = gs.goblins) ∧
    (∀ (gs : GameState) (lastTapTime now : ℤ),
      (((handleDoubleTap gs lastTapTime now).1.goblins.map Goblin.id).Sublist
        (gs.goblins.map Goblin.id)) ∧
      (IdsNodup gs → IdsNodup (handleDoubleTap gs lastTapTime now).1)) ∧
    (∀ (rho : ℕ → ℕ) (i : ℕ) (gs : GameState),
      (goblinTick rho i gs).goblins.map Goblin.id = gs.goblins.map Goblin.id) ∧
    (∀ gs : GameState, (restartCurrentLevel gs).goblins = gs.goblins) := by
  refine ⟨?_, moveGoblin_id, ?_, ?_, ?_, fun _ => rfl⟩
  · intro rho i grid start endP playerPos
    constructor
    · unfold generateGoblins
      dsimp only
      rw [List.map_map, List.length_map, List.length_range, List.range'_eq_map_range]
      apply List.map_congr_left
      intro k hk
      simp [Function.comp]
      omega
    · unfold generateGoblins
      dsimp only
      rw [List.map_map]
      apply List.Nodup.map
      · intro a b hab
        simpa [Function.comp] using hab
      · exact List.nodup_range _
  · intro gs d
    unfold handleMove
    dsimp only
    split_ifs <;> try rfl
    all_goals cases gs.goblins.find? (isAmbushing gs.playerPosition) <;> rfl
  · intro gs lastTapTime now
    have hsub : ((handleDoubleTap gs lastTapTime now).1.goblins.map Goblin.id).Sublist
        (gs.goblins.map Goblin.id) := by
      unfold handleDoubleTap
      dsimp only
      split_ifs
      · exact List.Sublist.refl _
      · cases gs.goblins.find? (isAmbushing gs.playerPosition) with
        | some g0 => exact List.Sublist.refl _
        | none =>
          cases gs.goblins.find? (isBackstabTarget gs.playerPosition) with
          | some g0 =>
            exact (List.filter_sublist _).map _
          | none => exact List.Sublist.refl _
      · exact List.Sublist.refl _
    exact ⟨hsub, fun h => h.sublist hsub⟩
  · intro rho i gs
    unfold goblinTick
    split_ifs with h1
    · rfl
    · rw [List.map_map]
      have hcongr : (gs.goblins.enum.map
          (Goblin.id ∘ fun kg =>
            moveGoblin rho (i + kg.1) kg.2 gs.grid gs.playerPosition)) =
          gs.goblins.enum.map (fun kg => kg.2.id) := by
        apply List.map_congr_left
        intro kg hkg
        simp [Function.comp, moveGoblin_id]
      rw [hcongr]
      have : gs.goblins.enum.map (fun kg => kg.2.id) =
          (gs.goblins.enum.map Prod.snd).map Goblin.id := by
        rw [List.map_map]
        rfl
      rw [this, List.enum_map_snd]

/-- C8 witness: after a backstab on a concrete two-goblin state the remaining
ids are still distinct, and the id list shrank to a sublist. -/
theorem goblin_ids_invariant_witness :
    ((handleDoubleTap gsW3 100 200).1.goblins.map Goblin.id).Sublist
      (gsW3.goblins.map Goblin.id) ∧ IdsNodup (handleDoubleTap gsW3 100 200).1 :=
  ⟨(goblin_ids_invariant.2.2.2.1 gsW3 100 200).1,
   (goblin_ids_invariant.2.2.2.1 gsW3 100 200).2 (by decide)⟩

/-! ### Claim C5 -/

theorem perm_getD_cons_eraseIdx :
    ∀ (l : List Position) (k : ℕ) (d : Position), k < l.length →
      l.Perm (l.getD k d :: l.eraseIdx k)
  | [], k, d, h => by simp at h
  | x :: xs, 0, d, h => by
    simp only [List.getD_eq_getElem?_getD, List.getElem?_cons_zero, Option.getD_some,
      List.eraseIdx_cons_zero]
    exact List.Perm.refl _
  | x :: xs, k + 1, d, h => by
    have hrec := perm_getD_cons_eraseIdx xs k d (by simpa using h)
    have h1 : (x :: xs).getD (k + 1) d = xs.getD k d := by
      simp [List.getD_eq_getElem?_getD]
    rw [h1, List.eraseIdx_cons_succ]
    exact (hrec.cons x).trans (List.Perm.swap (xs.getD k d) x (xs.eraseIdx k))

theorem shuffleAux_perm (rho : ℕ → ℕ) :
    ∀ (fuel i : ℕ) (l : List Position), l.length ≤ fuel →
      (shuffleAux rho fuel i l).Perm l := by
  intro fuel
  induction fuel with
  | zero =>
    intro i l hl
    have hnil : l = [] := List.length_eq_zero.mp (by omega)
    subst hnil
    exact List.Perm.refl _
  | succ fuel ih =>
    intro i l hl
    cases l with
    | nil => exact List.Perm.refl _
    | cons x xs =>
      unfold shuffleAux
      dsimp only
      have hk : rho i % (x :: xs).length < (x :: xs).length :=
        Nat.mod_lt _ (by simp)
      have hperm := ih (i + 1) ((x :: xs).eraseIdx (rho i % (x :: xs).length)) (by
        rw [List.length_eraseIdx]
        simp only [if_pos hk]
        simp at hl ⊢
        omega)
      exact ((hperm.cons _).trans (perm_getD_cons_eraseIdx _ _ x hk).symm)

theorem shuffleList_perm (rho : ℕ → ℕ) (i : ℕ) (l : List Position) :
    (shuffleList rho i l).Perm l :=
  shuffleAux_perm rho l.length i l (Nat.le_refl _)

theorem mem_trapPathPositions (grid : Grid) (start endP : Position) (t : Position)
    (h : t ∈ trapPathPositions grid start endP) :
    isPath grid t = true ∧ t ≠ start ∧ t ≠ endP := by
  unfold trapPathPositions at h
  rw [List.mem_flatMap] at h
  obtain ⟨y, hy, hin⟩ := h
  rw [List.mem_range] at hy
  rw [List.mem_filterMap] at hin
  obtain ⟨x, hx, hsome⟩ := hin
  rw [List.mem_range] at hx
  dsimp only at hsome
  split_ifs at hsome with hc
  · rw [Option.some.injEq] at hsome
    subst hsome
    simp only [Bool.and_eq_true, Bool.not_eq_eq_eq_not, Bool.not_true, Bool.and_eq_false_imp,
      decide_eq_true_eq, decide_eq_false_iff_not] at hc
    obtain ⟨⟨hcell, hs⟩, he⟩ := hc
    have hvalid : isValidPosition ⟨((x : ℕ) : ℤ), ((y : ℕ) : ℤ)⟩ = true := by
      simp only [isValidPosition, GRID_SIZE, Bool.and_eq_true, decide_eq_true_eq]
      refine ⟨⟨⟨by positivity, by exact_mod_cast hx⟩, by positivity⟩, by exact_mod_cast hy⟩
    refine ⟨?_, ?_, ?_⟩
    · unfold isPath
      rw [hvalid]
      simpa using hcell
    · intro heq
      have hx0 : start.x = ((x : ℕ) : ℤ) := by rw [← heq]
      have hy0 : start.y = ((y : ℕ) : ℤ) := by rw [← heq]
      exact (hs hx0.symm) hy0.symm
    · intro heq
      have hx0 : endP.x = ((x : ℕ) : ℤ) := by rw [← heq]
      have hy0 : endP.y = ((y : ℕ) : ℤ) := by rw [← heq]
      exact (he hx0.symm) hy0.symm

theorem mem_goblinPathPositions (grid : Grid) (start endP playerPos : Position)
    (t : Position) (h : t ∈ goblinPathPositions grid start endP playerPos) :
    isPath grid t = true ∧ t ≠ start ∧ t ≠ endP ∧ t ≠ playerPos := by
  unfold goblinPathPositions at h
  rw [List.mem_flatMap] at h
  obtain ⟨y, hy, hin⟩ := h
  rw [List.mem_range] at hy
  rw [List.mem_filterMap] at hin
  obtain ⟨x, hx, hsome⟩ := hin
  rw [List.mem_range] at hx
  dsimp only at hsome
  split_ifs at hsome with hc
  · rw [Option.some.injEq] at hsome
    subst hsome
    simp only [Bool.and_eq_true, Bool.not_eq_eq_eq_not, Bool.not_true, Bool.and_eq_false_imp,
      decide_eq_true_eq, decide_eq_false_iff_not] at hc
    obtain ⟨⟨⟨hcell, hs⟩, he⟩, hp⟩ := hc
    have hvalid : isValidPosition ⟨((x : ℕ) : ℤ), ((y : ℕ) : ℤ)⟩ = true := by
      simp only [isValidPosition, GRID_SIZE, Bool.and_eq_true, decide_eq_true_eq]
      refine ⟨⟨⟨by positivity, by exact_mod_cast hx⟩, by positivity⟩, by exact_mod_cast hy⟩
    refine ⟨?_, ?_, ?_, ?_⟩
    · unfold isPath
      rw [hvalid]
      simpa using hcell
    · intro heq
      have hx0 : start.x = ((x : ℕ) : ℤ) := by rw [← heq]
      have hy0 : start.y = ((y : ℕ) : ℤ) := by rw [← heq]
      exact (hs hx0.symm) hy0.symm
    · intro heq
      have hx0 : endP.x = ((x : ℕ) : ℤ) := by rw [← heq]
      have hy0 : endP.y = ((y : ℕ) : ℤ) := by rw [← heq]
      exact (he hx0.symm) hy0.symm
    · intro heq
      have hx0 : playerPos.x = ((x : ℕ) : ℤ) := by rw [← heq]
      have hy0 : playerPos.y = ((y : ℕ) : ℤ) := by rw [← heq]
      exact (hp hx0.symm) hy0.symm

theorem trapPathPositions_nodup (grid : Grid) (start endP : Position) :
    (trapPathPositions grid start endP).Nodup := by
  unfold trapPathPositions
  rw [List.nodup_flatMap]
  constructor
  · intro y hy
    refine (List.nodup_range 10).filterMap ?_
    intro a a' b hb hb'
    rw [Option.mem_def] at hb hb'
    dsimp only at hb hb'
    split_ifs at hb with h1
    split_ifs at hb' with h2
    rw [Option.some.injEq] at hb hb'
    have hxa : b.x = (a : ℤ) := by rw [← hb]
    have hxa2 : b.x = (a' : ℤ) := by rw [← hb']
    rw [hxa] at hxa2
    exact_mod_cast hxa2
  · have hpl : List.Pairwise (· < ·) (List.range 10) := List.pairwise_lt_range 10
    refine hpl.imp ?_
    intro y y' hyy c hc hc'
    rw [List.mem_filterMap] at hc hc'
    obtain ⟨x, hxr, hsome⟩ := hc
    obtain ⟨x2, hxr2, hsome2⟩ := hc'
    dsimp only at hsome hsome2
    split_ifs at hsome with h1
    split_ifs at hsome2 with h2
    rw [Option.some.injEq] at hsome hsome2
    have hcy : c.y = (y : ℤ) := by rw [← hsome]
    have hcy2 : c.y = (y' : ℤ) := by rw [← hsome2]
    rw [hcy] at hcy2
    have : y = y' := by exact_mod_cast hcy2
    omega

/-- C5: every trap position returned by `generateTraps` is a Path cell
distinct from start and end, exactly min(numTraps, #eligible) distinct
positions are returned, and every goblin placed by `generateGoblins` sits on
a Path cell distinct from start, end and the player's initial position. -/
theorem placement_avoids_reserved_cells :
    (∀ (rho : ℕ → ℕ) (i : ℕ) (grid : Grid) (start endP : Position) (numTraps : ℕ)
      (t : Position), t ∈ generateTraps rho i grid start endP numTraps →
      isPath grid t = true ∧ t ≠ start ∧ t ≠ endP) ∧
    (∀ (rho : ℕ → ℕ) (i : ℕ) (grid : Grid) (start endP : Position) (numTraps : ℕ),
      (generateTraps rho i grid start endP numTraps).length =
        min numTraps (trapPathPositions grid start endP).length ∧
      (generateTraps rho i grid start endP numTraps).Nodup) ∧
    (∀ (rho : ℕ → ℕ) (i : ℕ) (grid : Grid) (start endP playerPos : Position)
      (g : Goblin), g ∈ generateGoblins rho i grid start endP playerPos →
      isPath grid g.position = true ∧ g.position ≠ start ∧ g.position ≠ endP ∧
        g.position ≠ playerPos) := by
  refine ⟨?_, ?_, ?_⟩
  · intro rho i grid start endP numTraps t ht
    unfold generateTraps at ht
    dsimp only at ht
    have hmem : t ∈ shuffleList rho i (trapPathPositions grid start endP) :=
      List.mem_of_mem_take ht
    exact mem_trapPathPositions grid start endP t
      ((shuffleList_perm rho i _).mem_iff.mp hmem)
  · intro rho i grid start endP numTraps
    constructor
    · unfold generateTraps
      dsimp only
      rw [List.length_take, (shuffleList_perm rho i _).length_eq]
      omega
    · unfold generateTraps
      dsimp only
      exact ((shuffleList_perm rho i _).nodup_iff.mpr
        (trapPathPositions_nodup grid start endP)).sublist (List.take_sublist _ _)
  · intro rho i grid start endP playerPos g hg
    unfold generateGoblins at hg
    dsimp only at hg
    rw [List.mem_map] at hg
    obtain ⟨k, hk, hgdef⟩ := hg
    rw [List.mem_range] at hk
    have hpos : g.position =
        (shuffleList rho (i + 1) (goblinPathPositions grid start endP playerPos)).getD k
          ⟨0, 0⟩ := by
      rw [← hgdef]
    have hklt : k <
        (shuffleList rho (i + 1) (goblinPathPositions grid start endP playerPos)).length := by
      have := (shuffleList_perm rho (i + 1)
        (goblinPathPositions grid start endP playerPos)).length_eq
      omega
    have hmem : g.position ∈
        shuffleList rho (i + 1) (goblinPathPositions grid start endP playerPos) := by
      rw [hpos]
      exact getD_mem _ _ _ hklt
    exact mem_goblinPathPositions grid start endP playerPos g.position
      ((shuffleList_perm rho (i + 1) _).mem_iff.mp hmem)

/-- C5 witness: on the concrete grid `gridW` the placed traps and goblins all
sit on Path cells away from start, end (and the player). -/
theorem placement_avoids_reserved_cells_witness :
    (isPath gridW ⟨1, 0⟩ = true ∧ (⟨1, 0⟩ : Position) ≠ ⟨0, 0⟩ ∧
      (⟨1, 0⟩ : Position) ≠ ⟨9, 0⟩) ∧
    (generateTraps rhoW 0 gridW ⟨0, 0⟩ ⟨9, 0⟩ 2).length =
      min 2 (trapPathPositions gridW ⟨0, 0⟩ ⟨9, 0⟩).length :=
  ⟨placement_avoids_reserved_cells.1 rhoW 0 gridW ⟨0, 0⟩ ⟨9, 0⟩ 2 ⟨1, 0⟩ (by decide),
   (placement_avoids_reserved_cells.2.1 rhoW 0 gridW ⟨0, 0⟩ ⟨9, 0⟩ 2).1⟩

end BlindRogue
